import Mathlib

set_option maxHeartbeats 1000000

/-! Verification development for the poissimple Poisson-disk sampler.

The JavaScript source keeps real-valued state and uses the IEEE values
Infinity and -Infinity as the initial running minimum and running maximum;
those two sentinels are modelled by the top and bottom elements of the
extended reals, and every other numeric value by a real number. The
injected random number generator is modelled as a stream of reals together
with a counter (stored in the sampler state) recording how many values have
been consumed so far. -/

/-- Minimum of a list of real values in the extended reals, starting from the
value the source uses for an empty running minimum (Infinity); mirrors the
accumulation pattern of repeatedly taking the minimum of the accumulator and
the next value. -/
noncomputable def listMinE (l : List ℝ) : EReal :=
  l.foldl (fun (minDistance : EReal) (d : ℝ) => min minDistance (d : EReal)) ⊤

theorem foldl_min_le_init (l : List ℝ) (a : EReal) :
    l.foldl (fun (m : EReal) (d : ℝ) => min m (d : EReal)) a ≤ a := by
  induction l generalizing a with
  | nil => exact le_rfl
  | cons x xs ih =>
    rw [List.foldl_cons]
    exact le_trans (ih _) (min_le_left _ _)

theorem foldl_min_le_mem {x : ℝ} {l : List ℝ} (hx : x ∈ l) (a : EReal) :
    l.foldl (fun (m : EReal) (d : ℝ) => min m (d : EReal)) a ≤ (x : EReal) := by
  induction l generalizing a with
  | nil => cases hx
  | cons y ys ih =>
    rw [List.foldl_cons]
    rcases List.mem_cons.mp hx with h | h
    · subst h
      exact le_trans (foldl_min_le_init _ _) (min_le_right _ _)
    · exact ih h _

theorem foldl_min_cases (l : List ℝ) (a : EReal) :
    l.foldl (fun (m : EReal) (d : ℝ) => min m (d : EReal)) a = a ∨
      ∃ x ∈ l, l.foldl (fun (m : EReal) (d : ℝ) => min m (d : EReal)) a = (x : EReal) := by
  induction l generalizing a with
  | nil => exact Or.inl rfl
  | cons y ys ih =>
    rw [List.foldl_cons]
    rcases ih (min a (y : EReal)) with h | ⟨x, hx, h⟩
    · rcases min_cases a (y : EReal) with ⟨h1, _⟩ | ⟨h1, _⟩
      · exact Or.inl (by rw [h, h1])
      · exact Or.inr ⟨y, List.mem_cons_self y ys, by rw [h, h1]⟩
    · exact Or.inr ⟨x, List.mem_cons_of_mem _ hx, h⟩

theorem listMinE_nil : listMinE [] = ⊤ := rfl

theorem listMinE_le_mem {x : ℝ} {l : List ℝ} (hx : x ∈ l) :
    listMinE l ≤ (x : EReal) := foldl_min_le_mem hx ⊤

theorem listMinE_eq_top_or_coe (l : List ℝ) :
    listMinE l = ⊤ ∨ ∃ x ∈ l, listMinE l = (x : EReal) := foldl_min_cases l ⊤

theorem bot_lt_listMinE (l : List ℝ) : (⊥ : EReal) < listMinE l := by
  rcases listMinE_eq_top_or_coe l with h | ⟨x, _, h⟩ <;> rw [h]
  · exact bot_lt_top
  · exact EReal.bot_lt_coe x

/-- The extent volume of the sources: fold over the extent, multiplying the
accumulator by upper minus lower for each axis. -/
def computeExtentVolume (extent : List (ℝ × ℝ)) : ℝ :=
  extent.foldl (fun volume bounds => volume * (bounds.2 - bounds.1)) 1

/-- The derived radius of the sources: pi over four times (volume over n) to
the power one over dim. -/
noncomputable def computeLowerDistance (volume : ℝ) (n dim : ℕ) : ℝ :=
  Real.pi / 4 * (volume / (n : ℝ)) ^ ((1 : ℝ) / (dim : ℝ))

/-- Uniform candidate sampling of the sources: one random draw per axis of
the extent, mapped affinely onto that axis's bounds; the draw for axis `i`
uses the `(s + i)`-th value of the random stream `u`, and one candidate
consumes `extent.length` stream values. -/
def sampleUniform (extent : List (ℝ × ℝ)) (u : ℕ → ℝ) (s : ℕ) : List ℝ :=
  (List.range extent.length).map fun i =>
    (extent.getD i (0, 0)).1 +
      ((extent.getD i (0, 0)).2 - (extent.getD i (0, 0)).1) * u (s + i)

/-- The distance function of the sources: Euclidean distance over the first
`dim` coordinates, the square root of the sum of squared per-axis
differences. -/
noncomputable def distance (dim : ℕ) (point1 point2 : List ℝ) : ℝ :=
  Real.sqrt (((List.range dim).map fun i =>
    (point2.getD i 0 - point1.getD i 0) ^ 2).sum)

/-- The constructor options of `Poissimple`. Absent numeric options are
represented by `0`: the source applies defaults with a falsiness test, so an
absent field and a zero field are observationally identical. A 1-D flat
extent (a plain lower/upper pair) is represented by its normalized one-axis
nested form, mirroring the constructor's wrapping of a 1-D extent into a
single-axis nested array. -/
structure Options where
  n : ℕ
  dimensions : ℕ
  extent : Option (List (ℝ × ℝ))
  tries : ℕ
  repulsiveBoundary : Bool

/-- Sampler state of the `Poissimple` variant: the configuration fields, the
derived volume and radius, the accepted points, and the number of random
stream values consumed so far. -/
structure Poissimple where
  n : ℕ
  dim : ℕ
  extent : List (ℝ × ℝ)
  tries : ℕ
  repulsiveBoundary : Bool
  volume : ℝ
  radius : ℝ
  points : List (List ℝ)
  seed : ℕ

/-- The `Poissimple` constructor: defaults (ten points, two dimensions,
extent from minus one to one per axis, thirty tries, no boundary repulsion),
then the volume and radius computations; the accepted-point list starts
empty and no random values have been consumed. -/
noncomputable def Poissimple.init (o : Options) : Poissimple :=
  let n := if o.n = 0 then 10 else o.n
  let dim := if o.dimensions = 0 then 2 else o.dimensions
  let extent := o.extent.getD (List.replicate dim (-1, 1))
  let volume := computeExtentVolume extent
  { n := n, dim := dim, extent := extent,
    tries := if o.tries = 0 then 30 else o.tries,
    repulsiveBoundary := o.repulsiveBoundary,
    volume := volume,
    radius := computeLowerDistance volume n dim,
    points := [], seed := 0 }

/-- Nearest-neighbor distance of the sources: the minimum distance from the
candidate to the accepted points, Infinity (top) when there are none. -/
noncomputable def Poissimple.distanceToExisting (P : Poissimple) (candidate : List ℝ) : EReal :=
  listMinE (P.points.map fun p => distance P.dim p candidate)

/-- Boundary distance of the `Poissimple` variant: the minimum over the
candidate's axes of the distance to the nearer of that axis's two extent
edges, Infinity (top) for an empty candidate. -/
noncomputable def Poissimple.distanceToBoundary (P : Poissimple) (candidate : List ℝ) : EReal :=
  listMinE ((List.range candidate.length).map fun i =>
    min |candidate.getD i 0 - (P.extent.getD i (0, 0)).1|
      |(P.extent.getD i (0, 0)).2 - candidate.getD i 0|)

/-- The acceptance distance computed for a candidate inside the generation
loop: the nearest-neighbor distance, additionally capped by twice the
boundary distance when `repulsiveBoundary` is set. -/
noncomputable def Poissimple.effectiveDistance (P : Poissimple) (candidate : List ℝ) : EReal :=
  let distToNearest := P.distanceToExisting candidate
  if P.repulsiveBoundary then
    min distToNearest (((2 : ℝ) : EReal) * P.distanceToBoundary candidate)
  else distToNearest

/-- The try loop of `next`: with the given number of remaining tries, draw a
candidate, update the best candidate seen when its acceptance distance
strictly improves on the running maximum, and stop early as soon as a
candidate's acceptance distance strictly exceeds the radius. Returns the
best candidate together with the stream position after the draws made. -/
noncomputable def Poissimple.nextLoop (P : Poissimple) (u : ℕ → ℝ) :
    ℕ → Option (List ℝ) → EReal → ℕ → Option (List ℝ) × ℕ
  | 0, bestPoint, _, seed => (bestPoint, seed)
  | t + 1, bestPoint, largestDist, seed =>
    let candidate := sampleUniform P.extent u seed
    let distToNearest := P.effectiveDistance candidate
    let bestPoint1 := if largestDist < distToNearest then some candidate else bestPoint
    let largestDist1 := if largestDist < distToNearest then distToNearest else largestDist
    if (P.radius : EReal) < distToNearest then (bestPoint1, seed + P.extent.length)
    else P.nextLoop u t bestPoint1 largestDist1 (seed + P.extent.length)

/-- `next`: returns the completion sentinel (none) once the accepted-point
count equals `n`, leaving the state unchanged; otherwise runs the try loop,
appends the resulting point and returns it. With a zero try budget the loop
yields no candidate and nothing is appended (there the source pushes a null
entry instead; the constructor's tries default makes the budget positive for
every constructed sampler, so no constructed state reaches that corner). -/
noncomputable def Poissimple.next (P : Poissimple) (u : ℕ → ℝ) :
    Option (List ℝ) × Poissimple :=
  if P.points.length = P.n then (none, P)
  else
    let r := P.nextLoop u P.tries none ⊥ P.seed
    (r.1, { P with points := P.points ++ r.1.toList, seed := r.2 })

/-- The loop body of `fill` with explicit fuel: while fewer than `n` points
exist, take a `next` step. Fuel `n - length` suffices because every step
with a positive try budget appends exactly one point. -/
noncomputable def Poissimple.fillAux (u : ℕ → ℝ) : ℕ → Poissimple → Poissimple
  | 0, P => P
  | fuel + 1, P =>
    if P.points.length < P.n then Poissimple.fillAux u fuel (P.next u).2 else P

/-- `fill`: generate until `n` points exist and return the point list. -/
noncomputable def Poissimple.fill (P : Poissimple) (u : ℕ → ℝ) :
    List (List ℝ) × Poissimple :=
  let P1 := Poissimple.fillAux u (P.n - P.points.length) P
  (P1.points, P1)

/-- `getPoints`: the accepted points so far. -/
def Poissimple.getPoints (P : Poissimple) : List (List ℝ) := P.points

/-- Modelled from the spec: `addPoint` is documented in the repository's
README and in the spec but is absent from the source file under src. It
validates only that the supplied point's coordinate count equals the
dimensionality, failing with a shape mismatch (none) and leaving the state
unchanged otherwise, and appends the point without any distance check
against existing points and without any range check against the extent. -/
def Poissimple.addPoint (P : Poissimple) (point : List ℝ) : Option Poissimple :=
  if point.length = P.dim then some { P with points := P.points ++ [point] } else none

/-- A generation call made by a caller: a single step or a fill call. -/
inductive SamplerOp where
  | next : SamplerOp
  | fill : SamplerOp

/-- Run a sequence of generation calls against a `Poissimple` state. -/
noncomputable def Poissimple.runOps (u : ℕ → ℝ) : List SamplerOp → Poissimple → Poissimple
  | [], P => P
  | SamplerOp.next :: ops, P => Poissimple.runOps u ops (P.next u).2
  | SamplerOp.fill :: ops, P => Poissimple.runOps u ops (P.fill u).2

/-- The constructor options of the `PoisSimple` variant, which destructures
`n`, `dimensions`, `extent` and `tries` directly: `n` and `dimensions` carry
no default, the extent defaults per axis, and an absent or zero tries field
becomes thirty (falsiness test in the source). -/
structure PoisSimpleOptions where
  n : ℕ
  dimensions : ℕ
  extent : Option (List (ℝ × ℝ))
  tries : ℕ

/-- Sampler state of the `PoisSimple` variant found at the top of the source
file: as `Poissimple` but with no boundary-repulsion flag. -/
structure PoisSimple where
  n : ℕ
  dim : ℕ
  extent : List (ℝ × ℝ)
  tries : ℕ
  volume : ℝ
  radius : ℝ
  points : List (List ℝ)
  seed : ℕ

/-- The `PoisSimple` constructor: `n` and `dimensions` taken as given, the
default extent and tries as in the other variant, then the volume and radius
computations. -/
noncomputable def PoisSimple.init (o : PoisSimpleOptions) : PoisSimple :=
  let extent := o.extent.getD (List.replicate o.dimensions (-1, 1))
  let volume := computeExtentVolume extent
  { n := o.n, dim := o.dimensions, extent := extent,
    tries := if o.tries = 0 then 30 else o.tries,
    volume := volume,
    radius := computeLowerDistance volume o.n o.dimensions,
    points := [], seed := 0 }

/-- Nearest-neighbor distance of the `PoisSimple` variant (same computation
as the other variant). -/
noncomputable def PoisSimple.distanceToExisting (P : PoisSimple) (candidate : List ℝ) : EReal :=
  listMinE (P.points.map fun p => distance P.dim p candidate)

/-- The try loop of the `PoisSimple` variant's `next`: as the other variant
but with no boundary-repulsion cap on the acceptance distance. -/
noncomputable def PoisSimple.nextLoop (P : PoisSimple) (u : ℕ → ℝ) :
    ℕ → Option (List ℝ) → EReal → ℕ → Option (List ℝ) × ℕ
  | 0, bestPoint, _, seed => (bestPoint, seed)
  | t + 1, bestPoint, largestDist, seed =>
    let candidate := sampleUniform P.extent u seed
    let distToNearest := P.distanceToExisting candidate
    let bestPoint1 := if largestDist < distToNearest then some candidate else bestPoint
    let largestDist1 := if largestDist < distToNearest then distToNearest else largestDist
    if (P.radius : EReal) < distToNearest then (bestPoint1, seed + P.extent.length)
    else P.nextLoop u t bestPoint1 largestDist1 (seed + P.extent.length)

/-- `next` of the `PoisSimple` variant. -/
noncomputable def PoisSimple.next (P : PoisSimple) (u : ℕ → ℝ) :
    Option (List ℝ) × PoisSimple :=
  if P.points.length = P.n then (none, P)
  else
    let r := P.nextLoop u P.tries none ⊥ P.seed
    (r.1, { P with points := P.points ++ r.1.toList, seed := r.2 })

/-- The loop body of the `PoisSimple` variant's `fill`, with explicit fuel. -/
noncomputable def PoisSimple.fillAux (u : ℕ → ℝ) : ℕ → PoisSimple → PoisSimple
  | 0, P => P
  | fuel + 1, P =>
    if P.points.length < P.n then PoisSimple.fillAux u fuel (P.next u).2 else P

/-- `fill` of the `PoisSimple` variant. -/
noncomputable def PoisSimple.fill (P : PoisSimple) (u : ℕ → ℝ) :
    List (List ℝ) × PoisSimple :=
  let P1 := PoisSimple.fillAux u (P.n - P.points.length) P
  (P1.points, P1)

/-- `getAllPoints` of the `PoisSimple` variant. -/
def PoisSimple.getAllPoints (P : PoisSimple) : List (List ℝ) := P.points

/-- Run a sequence of generation calls against a `PoisSimple` state. -/
noncomputable def PoisSimple.runOps (u : ℕ → ℝ) : List SamplerOp → PoisSimple → PoisSimple
  | [], P => P
  | SamplerOp.next :: ops, P => PoisSimple.runOps u ops (P.next u).2
  | SamplerOp.fill :: ops, P => PoisSimple.runOps u ops (P.fill u).2

/-- Modelled from the spec: the per-axis difference entering the periodic
distance variant, which is documented in the README and the spec but absent
from the source file under src (its distance function carries no periodic
branch). For an axis with the given span and raw difference, the periodic
contribution is the smaller of the direct distance and the distance through
the glued boundary; a non-periodic axis contributes the direct distance. -/
noncomputable def periodicAxisDiff (periodicFlag : Bool) (span diff : ℝ) : ℝ :=
  if periodicFlag then min |diff| (span - |diff|) else |diff|

/-- Modelled from the spec: the distance between two points under per-axis
periodicity flags, absent from the source file under src; the Euclidean
combination of the per-axis contributions, with each axis's span taken from
the extent. -/
noncomputable def periodicDistance (extent : List (ℝ × ℝ)) (periodicFlags : List Bool)
    (dim : ℕ) (point1 point2 : List ℝ) : ℝ :=
  Real.sqrt (((List.range dim).map fun i =>
    periodicAxisDiff (periodicFlags.getD i false)
      ((extent.getD i (0, 0)).2 - (extent.getD i (0, 0)).1)
      (point2.getD i 0 - point1.getD i 0) ^ 2).sum)

theorem Poissimple.next_at_capacity (P : Poissimple) (u : ℕ → ℝ)
    (h : P.points.length = P.n) : P.next u = (none, P) := by
  rw [Poissimple.next, if_pos h]

theorem Poissimple.next_not_full (P : Poissimple) (u : ℕ → ℝ)
    (h : ¬ P.points.length = P.n) :
    P.next u = ((P.nextLoop u P.tries none ⊥ P.seed).1,
      { P with points := P.points ++ (P.nextLoop u P.tries none ⊥ P.seed).1.toList,
               seed := (P.nextLoop u P.tries none ⊥ P.seed).2 }) := by
  rw [Poissimple.next, if_neg h]

theorem Poissimple.next_config (P : Poissimple) (u : ℕ → ℝ) :
    (P.next u).2.n = P.n ∧ (P.next u).2.dim = P.dim ∧ (P.next u).2.extent = P.extent ∧
      (P.next u).2.tries = P.tries ∧
      (P.next u).2.repulsiveBoundary = P.repulsiveBoundary ∧
      (P.next u).2.volume = P.volume ∧ (P.next u).2.radius = P.radius := by
  rw [Poissimple.next]
  split <;> simp

theorem Poissimple.next_length_le (P : Poissimple) (u : ℕ → ℝ)
    (h : P.points.length ≤ P.n) :
    (P.next u).2.points.length ≤ (P.next u).2.n := by
  rw [(P.next_config u).1]
  by_cases hfull : P.points.length = P.n
  · rw [P.next_at_capacity u hfull]
    exact h
  · rw [P.next_not_full u hfull]
    have hlt : P.points.length < P.n := lt_of_le_of_ne h hfull
    cases (P.nextLoop u P.tries none ⊥ P.seed).1 with
    | none => simpa using h
    | some p => simpa using hlt

theorem Poissimple.fillAux_length_le (u : ℕ → ℝ) (fuel : ℕ) (P : Poissimple)
    (h : P.points.length ≤ P.n) :
    (Poissimple.fillAux u fuel P).points.length ≤ (Poissimple.fillAux u fuel P).n := by
  induction fuel generalizing P with
  | zero => exact h
  | succ fuel ih =>
    rw [Poissimple.fillAux]
    split
    · exact ih _ (P.next_length_le u h)
    · exact h

theorem Poissimple.fillAux_config (u : ℕ → ℝ) (fuel : ℕ) (P : Poissimple) :
    (Poissimple.fillAux u fuel P).n = P.n ∧
      (Poissimple.fillAux u fuel P).radius = P.radius := by
  induction fuel generalizing P with
  | zero => exact ⟨rfl, rfl⟩
  | succ fuel ih =>
    rw [Poissimple.fillAux]
    split
    · exact ⟨((ih _).1).trans (P.next_config u).1,
        ((ih _).2).trans (P.next_config u).2.2.2.2.2.2⟩
    · exact ⟨rfl, rfl⟩

theorem Poissimple.fill_length_le (P : Poissimple) (u : ℕ → ℝ)
    (h : P.points.length ≤ P.n) :
    (P.fill u).2.points.length ≤ (P.fill u).2.n :=
  Poissimple.fillAux_length_le u _ P h

theorem Poissimple.runOps_length_le (u : ℕ → ℝ) (ops : List SamplerOp) (P : Poissimple)
    (h : P.points.length ≤ P.n) :
    (Poissimple.runOps u ops P).points.length ≤ (Poissimple.runOps u ops P).n := by
  induction ops generalizing P with
  | nil => exact h
  | cons op ops ih =>
    cases op with
    | next => exact ih _ (P.next_length_le u h)
    | fill => exact ih _ (P.fill_length_le u h)

theorem Poissimple.runOps_n (u : ℕ → ℝ) (ops : List SamplerOp) (P : Poissimple) :
    (Poissimple.runOps u ops P).n = P.n := by
  induction ops generalizing P with
  | nil => rfl
  | cons op ops ih =>
    cases op with
    | next => exact (ih _).trans (P.next_config u).1
    | fill => exact (ih _).trans (Poissimple.fillAux_config u _ P).1

/-- The candidate drawn on try `k` of a generation step whose first draw sits
at stream position `s`: each try consumes one draw per axis. -/
def candidateAt (extent : List (ℝ × ℝ)) (u : ℕ → ℝ) (s k : ℕ) : List ℝ :=
  sampleUniform extent u (s + k * extent.length)

theorem candidateAt_zero (extent : List (ℝ × ℝ)) (u : ℕ → ℝ) (s : ℕ) :
    candidateAt extent u s 0 = sampleUniform extent u s := by
  simp [candidateAt]

theorem candidateAt_shift (extent : List (ℝ × ℝ)) (u : ℕ → ℝ) (s k : ℕ) :
    candidateAt extent u (s + extent.length) k = candidateAt extent u s (k + 1) := by
  unfold candidateAt
  congr 1
  ring

theorem Poissimple.nextLoop_zero (P : Poissimple) (u : ℕ → ℝ) (b : Option (List ℝ))
    (l : EReal) (s : ℕ) : P.nextLoop u 0 b l s = (b, s) := rfl

theorem Poissimple.nextLoop_succ (P : Poissimple) (u : ℕ → ℝ) (t : ℕ)
    (b : Option (List ℝ)) (l : EReal) (s : ℕ) :
    P.nextLoop u (t + 1) b l s =
      (if (P.radius : EReal) < P.effectiveDistance (sampleUniform P.extent u s) then
        ((if l < P.effectiveDistance (sampleUniform P.extent u s) then
            some (sampleUniform P.extent u s) else b), s + P.extent.length)
      else P.nextLoop u t
        (if l < P.effectiveDistance (sampleUniform P.extent u s) then
          some (sampleUniform P.extent u s) else b)
        (if l < P.effectiveDistance (sampleUniform P.extent u s) then
          P.effectiveDistance (sampleUniform P.extent u s) else l)
        (s + P.extent.length)) := rfl

theorem Poissimple.nextLoop_succ_exit (P : Poissimple) (u : ℕ → ℝ) (t : ℕ)
    (b : Option (List ℝ)) (l : EReal) (s : ℕ)
    (hl : l < P.effectiveDistance (sampleUniform P.extent u s))
    (hd : (P.radius : EReal) < P.effectiveDistance (sampleUniform P.extent u s)) :
    P.nextLoop u (t + 1) b l s =
      (some (sampleUniform P.extent u s), s + P.extent.length) := by
  rw [Poissimple.nextLoop_succ, if_pos hd, if_pos hl]

theorem Poissimple.nextLoop_succ_cont (P : Poissimple) (u : ℕ → ℝ) (t : ℕ)
    (b : Option (List ℝ)) (l : EReal) (s : ℕ)
    (hd : ¬ (P.radius : EReal) < P.effectiveDistance (sampleUniform P.extent u s)) :
    P.nextLoop u (t + 1) b l s =
      P.nextLoop u t
        (if l < P.effectiveDistance (sampleUniform P.extent u s) then
          some (sampleUniform P.extent u s) else b)
        (if l < P.effectiveDistance (sampleUniform P.extent u s) then
          P.effectiveDistance (sampleUniform P.extent u s) else l)
        (s + P.extent.length) := by
  rw [Poissimple.nextLoop_succ, if_neg hd]

theorem Poissimple.bot_lt_effectiveDistance (P : Poissimple) (c : List ℝ) :
    (⊥ : EReal) < P.effectiveDistance c := by
  rw [Poissimple.effectiveDistance]
  split
  · refine lt_min (bot_lt_listMinE _) ?_
    rcases listMinE_eq_top_or_coe ((List.range c.length).map fun i =>
        min |c.getD i 0 - (P.extent.getD i (0, 0)).1|
          |(P.extent.getD i (0, 0)).2 - c.getD i 0|) with h | ⟨x, _, h⟩ <;>
      rw [Poissimple.distanceToBoundary, h]
    · rw [EReal.mul_top_of_pos (by exact_mod_cast (by norm_num : (0 : ℝ) < 2))]
      exact bot_lt_top
    · rw [← EReal.coe_mul]
      exact EReal.bot_lt_coe _
  · exact bot_lt_listMinE _

theorem Poissimple.effectiveDistance_not_repulsive (P : Poissimple) (c : List ℝ)
    (hrb : P.repulsiveBoundary = false) :
    P.effectiveDistance c = P.distanceToExisting c := by
  rw [Poissimple.effectiveDistance, hrb]
  simp

theorem Poissimple.nextLoop_early (P : Poissimple) (u : ℕ → ℝ) :
    ∀ (j t : ℕ) (b : Option (List ℝ)) (l : EReal) (s : ℕ),
      j < t →
      ¬ (P.radius : EReal) < l →
      (∀ k < j, ¬ (P.radius : EReal) <
        P.effectiveDistance (candidateAt P.extent u s k)) →
      (P.radius : EReal) < P.effectiveDistance (candidateAt P.extent u s j) →
      P.nextLoop u t b l s =
        (some (candidateAt P.extent u s j), s + (j + 1) * P.extent.length) := by
  intro j
  induction j with
  | zero =>
    intro t b l s hjt hl _ hj
    obtain ⟨t1, rfl⟩ : ∃ t1, t = t1 + 1 := ⟨t - 1, by omega⟩
    rw [candidateAt_zero] at hj
    rw [P.nextLoop_succ_exit u t1 b l s (lt_of_le_of_lt (not_lt.mp hl) hj) hj]
    rw [candidateAt_zero]
    congr 1
    ring
  | succ j ih =>
    intro t b l s hjt hl hlead hj
    obtain ⟨t1, rfl⟩ : ∃ t1, t = t1 + 1 := ⟨t - 1, by omega⟩
    have h0 : ¬ (P.radius : EReal) <
        P.effectiveDistance (sampleUniform P.extent u s) := by
      have := hlead 0 (Nat.succ_pos j)
      rwa [candidateAt_zero] at this
    rw [P.nextLoop_succ_cont u t1 b l s h0]
    have hl1 : ¬ (P.radius : EReal) <
        (if l < P.effectiveDistance (sampleUniform P.extent u s) then
          P.effectiveDistance (sampleUniform P.extent u s) else l) := by
      split
      · exact h0
      · exact hl
    have hlead1 : ∀ k < j, ¬ (P.radius : EReal) <
        P.effectiveDistance (candidateAt P.extent u (s + P.extent.length) k) := by
      intro k hk
      rw [candidateAt_shift]
      exact hlead (k + 1) (by omega)
    have hj1 : (P.radius : EReal) <
        P.effectiveDistance (candidateAt P.extent u (s + P.extent.length) j) := by
      rw [candidateAt_shift]
      exact hj
    rw [ih t1 _ _ (s + P.extent.length) (by omega) hl1 hlead1 hj1]
    rw [candidateAt_shift]
    congr 1
    ring

theorem Poissimple.nextLoop_no_improve (P : Poissimple) (u : ℕ → ℝ) :
    ∀ (t : ℕ) (b : Option (List ℝ)) (l : EReal) (s : ℕ),
      (∀ k < t, P.effectiveDistance (candidateAt P.extent u s k) ≤ l) →
      ¬ (P.radius : EReal) < l →
      P.nextLoop u t b l s = (b, s + t * P.extent.length) := by
  intro t
  induction t with
  | zero =>
    intro b l s _ _
    rw [Poissimple.nextLoop_zero]
    congr 1
    ring
  | succ t ih =>
    intro b l s hle hl
    have h0 : P.effectiveDistance (sampleUniform P.extent u s) ≤ l := by
      have := hle 0 (Nat.succ_pos t)
      rwa [candidateAt_zero] at this
    have hd : ¬ (P.radius : EReal) <
        P.effectiveDistance (sampleUniform P.extent u s) :=
      fun h => hl (lt_of_lt_of_le h h0)
    rw [P.nextLoop_succ_cont u t b l s hd, if_neg (not_lt.mpr h0), if_neg (not_lt.mpr h0)]
    have hle1 : ∀ k < t,
        P.effectiveDistance (candidateAt P.extent u (s + P.extent.length) k) ≤ l := by
      intro k hk
      rw [candidateAt_shift]
      exact hle (k + 1) (by omega)
    rw [ih b l (s + P.extent.length) hle1 hl]
    congr 1
    ring

theorem Poissimple.nextLoop_fallback (P : Poissimple) (u : ℕ → ℝ) :
    ∀ (j t : ℕ) (b : Option (List ℝ)) (l : EReal) (s : ℕ),
      j < t →
      (∀ k < t, ¬ (P.radius : EReal) <
        P.effectiveDistance (candidateAt P.extent u s k)) →
      (∀ k < j, P.effectiveDistance (candidateAt P.extent u s k) <
        P.effectiveDistance (candidateAt P.extent u s j)) →
      (∀ k < t, P.effectiveDistance (candidateAt P.extent u s k) ≤
        P.effectiveDistance (candidateAt P.extent u s j)) →
      l < P.effectiveDistance (candidateAt P.extent u s j) →
      P.nextLoop u t b l s =
        (some (candidateAt P.extent u s j), s + t * P.extent.length) := by
  intro j
  induction j with
  | zero =>
    intro t b l s hjt hnoexit _ hmax hl
    obtain ⟨t1, rfl⟩ : ∃ t1, t = t1 + 1 := ⟨t - 1, by omega⟩
    have h0 : ¬ (P.radius : EReal) <
        P.effectiveDistance (sampleUniform P.extent u s) := by
      have := hnoexit 0 (Nat.succ_pos t1)
      rwa [candidateAt_zero] at this
    rw [candidateAt_zero] at hl
    rw [P.nextLoop_succ_cont u t1 b l s h0, if_pos hl, if_pos hl]
    have hle1 : ∀ k < t1,
        P.effectiveDistance (candidateAt P.extent u (s + P.extent.length) k) ≤
          P.effectiveDistance (sampleUniform P.extent u s) := by
      intro k hk
      rw [candidateAt_shift]
      have := hmax (k + 1) (by omega)
      rwa [candidateAt_zero] at this
    rw [P.nextLoop_no_improve u t1 _ _ (s + P.extent.length) hle1 h0]
    rw [candidateAt_zero]
    congr 1
    ring
  | succ j ih =>
    intro t b l s hjt hnoexit hbest hmax hl
    obtain ⟨t1, rfl⟩ : ∃ t1, t = t1 + 1 := ⟨t - 1, by omega⟩
    have h0 : ¬ (P.radius : EReal) <
        P.effectiveDistance (sampleUniform P.extent u s) := by
      have := hnoexit 0 (Nat.succ_pos t1)
      rwa [candidateAt_zero] at this
    rw [P.nextLoop_succ_cont u t1 b l s h0]
    have h0best : P.effectiveDistance (sampleUniform P.extent u s) <
        P.effectiveDistance (candidateAt P.extent u s (j + 1)) := by
      have := hbest 0 (Nat.succ_pos j)
      rwa [candidateAt_zero] at this
    have hl1 : (if l < P.effectiveDistance (sampleUniform P.extent u s) then
          P.effectiveDistance (sampleUniform P.extent u s) else l) <
        P.effectiveDistance (candidateAt P.extent u (s + P.extent.length) j) := by
      rw [candidateAt_shift]
      split
      · exact h0best
      · exact hl
    have hnoexit1 : ∀ k < t1, ¬ (P.radius : EReal) <
        P.effectiveDistance (candidateAt P.extent u (s + P.extent.length) k) := by
      intro k hk
      rw [candidateAt_shift]
      exact hnoexit (k + 1) (by omega)
    have hbest1 : ∀ k < j,
        P.effectiveDistance (candidateAt P.extent u (s + P.extent.length) k) <
          P.effectiveDistance (candidateAt P.extent u (s + P.extent.length) j) := by
      intro k hk
      rw [candidateAt_shift, candidateAt_shift]
      exact hbest (k + 1) (by omega)
    have hmax1 : ∀ k < t1,
        P.effectiveDistance (candidateAt P.extent u (s + P.extent.length) k) ≤
          P.effectiveDistance (candidateAt P.extent u (s + P.extent.length) j) := by
      intro k hk
      rw [candidateAt_shift, candidateAt_shift]
      exact hmax (k + 1) (by omega)
    rw [ih t1 _ _ (s + P.extent.length) (by omega) hnoexit1 hbest1 hmax1 hl1]
    rw [candidateAt_shift]
    congr 1
    ring

/-- C1: for every configuration and every sequence of next and fill calls,
the accepted-point count never exceeds n; and whenever the count already
equals n, next returns the completion sentinel (none) and leaves the state,
hence the collection, unchanged. -/
theorem Poissimple.points_length_bounded (o : Options) (u : ℕ → ℝ)
    (ops : List SamplerOp) :
    (Poissimple.runOps u ops (Poissimple.init o)).points.length ≤
      (Poissimple.init o).n ∧
    ∀ P : Poissimple, P.points.length = P.n → P.next u = (none, P) := by
  constructor
  · have h0 : (Poissimple.init o).points.length ≤ (Poissimple.init o).n := by
      simp [Poissimple.init]
    have h1 := Poissimple.runOps_length_le u ops _ h0
    rwa [Poissimple.runOps_n] at h1
  · exact fun P h => P.next_at_capacity u h

/-- A concrete sampler state used to instantiate claim theorems; its
accepted-point count already equals its target count. -/
def witnessState : Poissimple :=
  { n := 0, dim := 1, extent := [(0, 1)], tries := 1, repulsiveBoundary := false,
    volume := 1, radius := 1, points := [], seed := 0 }

/-- Witness for C1 at a concrete configuration, call sequence, and state. -/
theorem Poissimple.points_length_bounded_witness :
    (Poissimple.runOps (fun _ => 0) [SamplerOp.next, SamplerOp.fill]
        (Poissimple.init ⟨1, 1, some [(0, 1)], 1, false⟩)).points.length ≤
      (Poissimple.init ⟨1, 1, some [(0, 1)], 1, false⟩).n ∧
    witnessState.next (fun _ => 0) = (none, witnessState) :=
  ⟨(Poissimple.points_length_bounded ⟨1, 1, some [(0, 1)], 1, false⟩ (fun _ => 0)
      [SamplerOp.next, SamplerOp.fill]).1,
    (Poissimple.points_length_bounded ⟨1, 1, some [(0, 1)], 1, false⟩ (fun _ => 0)
      []).2 witnessState rfl⟩

/-- C2: during a next step with fewer than n accepted points, if try j is
the first whose acceptance distance strictly exceeds the derived radius,
then the loop stops at that candidate and the point appended to the
collection and returned is exactly that triggering candidate — not an
earlier candidate and not a later one — with exactly j+1 candidates
drawn. -/
theorem Poissimple.next_early_exit_accepts_trigger (P : Poissimple) (u : ℕ → ℝ)
    (j : ℕ) (hn : P.points.length < P.n) (hj : j < P.tries)
    (hfirst : ∀ k < j, ¬ (P.radius : EReal) <
      P.effectiveDistance (candidateAt P.extent u P.seed k))
    (hexceed : (P.radius : EReal) <
      P.effectiveDistance (candidateAt P.extent u P.seed j)) :
    P.next u = (some (candidateAt P.extent u P.seed j),
      { P with points := P.points ++ [candidateAt P.extent u P.seed j],
               seed := P.seed + (j + 1) * P.extent.length }) := by
  rw [P.next_not_full u (Nat.ne_of_lt hn)]
  rw [P.nextLoop_early u j P.tries none ⊥ P.seed hj (by simp) hfirst hexceed]
  rfl

/-- C3: during a next step with fewer than n accepted points and a positive
try budget, if no try's acceptance distance strictly exceeds the radius,
then next consumes the whole try budget and appends and returns the
candidate whose acceptance distance is largest, ties resolved in favor of
the earliest try (strict improvement only); in particular the step returns
a point, not the completion sentinel, so no step fails. -/
theorem Poissimple.next_fallback_best_candidate (P : Poissimple) (u : ℕ → ℝ)
    (j : ℕ) (hn : P.points.length < P.n) (hj : j < P.tries)
    (hnoexit : ∀ k < P.tries, ¬ (P.radius : EReal) <
      P.effectiveDistance (candidateAt P.extent u P.seed k))
    (hbest : ∀ k < j, P.effectiveDistance (candidateAt P.extent u P.seed k) <
      P.effectiveDistance (candidateAt P.extent u P.seed j))
    (hmax : ∀ k < P.tries, P.effectiveDistance (candidateAt P.extent u P.seed k) ≤
      P.effectiveDistance (candidateAt P.extent u P.seed j)) :
    P.next u = (some (candidateAt P.extent u P.seed j),
      { P with points := P.points ++ [candidateAt P.extent u P.seed j],
               seed := P.seed + P.tries * P.extent.length }) := by
  rw [P.next_not_full u (Nat.ne_of_lt hn)]
  rw [P.nextLoop_fallback u j P.tries none ⊥ P.seed hj hnoexit hbest hmax
    (P.bot_lt_effectiveDistance _)]
  rfl

theorem Poissimple.next_first_point (P : Poissimple) (u : ℕ → ℝ)
    (hp : P.points = []) (hn : 0 < P.n) (ht : 0 < P.tries)
    (hrb : P.repulsiveBoundary = false) :
    P.next u = (some (sampleUniform P.extent u P.seed),
      { P with points := [sampleUniform P.extent u P.seed],
               seed := P.seed + P.extent.length }) := by
  have htop : (P.radius : EReal) <
      P.effectiveDistance (candidateAt P.extent u P.seed 0) := by
    rw [candidateAt_zero, P.effectiveDistance_not_repulsive _ hrb,
      Poissimple.distanceToExisting, hp]
    simp only [List.map_nil, listMinE_nil]
    exact EReal.coe_lt_top P.radius
  have hlt : P.points.length < P.n := by
    rw [hp]
    simpa using hn
  rw [P.next_not_full u (Nat.ne_of_lt hlt)]
  rw [P.nextLoop_early u 0 P.tries none ⊥ P.seed ht (by simp)
    (fun k hk => absurd hk (by omega)) htop]
  rw [candidateAt_zero, hp]
  simp

theorem foldl_mul_spans (extent : List (ℝ × ℝ)) (a : ℝ) :
    extent.foldl (fun volume bounds => volume * (bounds.2 - bounds.1)) a =
      a * (extent.map fun bounds => bounds.2 - bounds.1).prod := by
  induction extent generalizing a with
  | nil => simp
  | cons b bs ih =>
    rw [List.foldl_cons, ih, List.map_cons, List.prod_cons]
    ring

theorem computeExtentVolume_eq_prod (extent : List (ℝ × ℝ)) :
    computeExtentVolume extent =
      (extent.map fun bounds => bounds.2 - bounds.1).prod := by
  rw [computeExtentVolume, foldl_mul_spans, one_mul]

theorem listMinE_attained {l : List ℝ} (hne : l ≠ []) :
    ∃ x ∈ l, listMinE l = (x : EReal) := by
  rcases listMinE_eq_top_or_coe l with h | hx
  · obtain ⟨y, ys, rfl⟩ := List.exists_cons_of_ne_nil hne
    have hle := listMinE_le_mem (List.mem_cons_self y ys)
    rw [h] at hle
    exact absurd (top_le_iff.mp hle) (EReal.coe_ne_top y)
  · exact hx

/-- C4: at construction the derived radius equals pi over four times
(V over n) to the power one over d, where V is the product over the axes of
upper minus lower of the constructed extent, n the target count and d the
dimensionality; and it is computed only there: next, fill and addPoint all
leave the radius field unchanged. -/
theorem Poissimple.radius_heuristic (o : Options) (u : ℕ → ℝ) (P Q : Poissimple)
    (point : List ℝ) :
    (Poissimple.init o).radius =
      Real.pi / 4 *
        (((Poissimple.init o).extent.map fun bounds => bounds.2 - bounds.1).prod /
            ((Poissimple.init o).n : ℝ)) ^
          ((1 : ℝ) / ((Poissimple.init o).dim : ℝ)) ∧
    (P.next u).2.radius = P.radius ∧
    (P.fill u).2.radius = P.radius ∧
    (P.addPoint point = some Q → Q.radius = P.radius) := by
  refine ⟨?_, (P.next_config u).2.2.2.2.2.2, (Poissimple.fillAux_config u _ P).2, ?_⟩
  · simp only [Poissimple.init]
    rw [computeLowerDistance, computeExtentVolume_eq_prod]
  · intro h
    rw [Poissimple.addPoint] at h
    split at h
    · cases h
      rfl
    · cases h

/-- Witness for C4 at a concrete configuration, state and injected point. -/
theorem Poissimple.radius_heuristic_witness :
    (Poissimple.init ⟨1, 1, some [(0, 1)], 1, false⟩).radius =
      Real.pi / 4 *
        (((Poissimple.init ⟨1, 1, some [(0, 1)], 1, false⟩).extent.map
            fun bounds => bounds.2 - bounds.1).prod /
            ((Poissimple.init ⟨1, 1, some [(0, 1)], 1, false⟩).n : ℝ)) ^
          ((1 : ℝ) / ((Poissimple.init ⟨1, 1, some [(0, 1)], 1, false⟩).dim : ℝ)) ∧
    ({ witnessState with points := witnessState.points ++ [[(1 : ℝ) / 2]] } :
        Poissimple).radius = witnessState.radius :=
  ⟨(Poissimple.radius_heuristic ⟨1, 1, some [(0, 1)], 1, false⟩ (fun _ => 0)
      witnessState witnessState []).1,
    (Poissimple.radius_heuristic ⟨1, 1, some [(0, 1)], 1, false⟩ (fun _ => 0)
      witnessState
      { witnessState with points := witnessState.points ++ [[(1 : ℝ) / 2]] }
      [(1 : ℝ) / 2]).2.2.2 rfl⟩

/-- C6: addPoint rejects a point whose coordinate count differs from the
configured dimensionality with a shape mismatch, leaving the collection
unchanged, and appends a correctly shaped point — getPoints grows by exactly
one and previously accepted points are unaltered — with no distance check
against existing points and no range check against the extent (the outcome
depends only on the coordinate count). -/
theorem Poissimple.addPoint_shape_check (P : Poissimple) (point : List ℝ) :
    (point.length ≠ P.dim → P.addPoint point = none) ∧
    (point.length = P.dim →
      P.addPoint point = some { P with points := P.points ++ [point] } ∧
      ∀ Q, P.addPoint point = some Q →
        Q.getPoints.length = P.getPoints.length + 1 ∧
        Q.getPoints.take P.getPoints.length = P.getPoints) := by
  constructor
  · intro h
    rw [Poissimple.addPoint, if_neg h]
  · intro h
    refine ⟨by rw [Poissimple.addPoint, if_pos h], fun Q hQ => ?_⟩
    rw [Poissimple.addPoint, if_pos h] at hQ
    cases hQ
    constructor
    · simp [Poissimple.getPoints]
    · simp [Poissimple.getPoints, List.take_left]

/-- Witness for C6: a wrongly shaped point is rejected and a correctly
shaped one appended, at a concrete state. -/
theorem Poissimple.addPoint_shape_check_witness :
    witnessState.addPoint [] = none ∧
    witnessState.addPoint [(1 : ℝ) / 2] =
      some { witnessState with points := witnessState.points ++ [[(1 : ℝ) / 2]] } :=
  ⟨(Poissimple.addPoint_shape_check witnessState []).1 (by decide),
    ((Poissimple.addPoint_shape_check witnessState [(1 : ℝ) / 2]).2 rfl).1⟩

/-- C7: with boundary repulsion enabled the acceptance distance of a
candidate during a generation step is the minimum of the nearest-neighbor
distance and twice the boundary distance; the boundary distance is the
least, over the candidate's axes, of the distance to the nearer of that
axis's two extent edges; with the flag disabled the acceptance distance is
the nearest-neighbor distance alone. -/
theorem Poissimple.effectiveDistance_repulsive (P : Poissimple)
    (candidate : List ℝ) :
    (P.repulsiveBoundary = true →
      P.effectiveDistance candidate =
        min (P.distanceToExisting candidate)
          (((2 : ℝ) : EReal) * P.distanceToBoundary candidate)) ∧
    (P.repulsiveBoundary = false →
      P.effectiveDistance candidate = P.distanceToExisting candidate) ∧
    (∀ i < candidate.length,
      P.distanceToBoundary candidate ≤
        ((min |candidate.getD i 0 - (P.extent.getD i (0, 0)).1|
            |(P.extent.getD i (0, 0)).2 - candidate.getD i 0| : ℝ) : EReal)) ∧
    (candidate ≠ [] → ∃ i < candidate.length,
      P.distanceToBoundary candidate =
        ((min |candidate.getD i 0 - (P.extent.getD i (0, 0)).1|
            |(P.extent.getD i (0, 0)).2 - candidate.getD i 0| : ℝ) : EReal)) := by
  refine ⟨fun h => ?_, fun h => P.effectiveDistance_not_repulsive _ h,
    fun i hi => ?_, fun hne => ?_⟩
  · rw [Poissimple.effectiveDistance, h]
    simp
  · exact listMinE_le_mem (List.mem_map_of_mem _ (List.mem_range.mpr hi))
  · have hlen : candidate.length ≠ 0 := fun h => hne (List.length_eq_zero.mp h)
    have hmapne : ((List.range candidate.length).map fun i =>
        min |candidate.getD i 0 - (P.extent.getD i (0, 0)).1|
          |(P.extent.getD i (0, 0)).2 - candidate.getD i 0|) ≠ [] := by
      simp [List.range_eq_nil, hlen]
    obtain ⟨x, hx, h⟩ := listMinE_attained hmapne
    obtain ⟨i, hi, rfl⟩ := List.mem_map.mp hx
    exact ⟨i, List.mem_range.mp hi, h⟩

/-- A concrete sampler state with boundary repulsion enabled, used to
instantiate claim theorems. -/
def repulsiveState : Poissimple :=
  { n := 1, dim := 1, extent := [(0, 1)], tries := 30, repulsiveBoundary := true,
    volume := 1, radius := 1, points := [], seed := 0 }

/-- Witness for C7 at concrete states (flag on and flag off) and a concrete
candidate. -/
theorem Poissimple.effectiveDistance_repulsive_witness :
    (repulsiveState.effectiveDistance [(1 : ℝ) / 2] =
      min (repulsiveState.distanceToExisting [(1 : ℝ) / 2])
        (((2 : ℝ) : EReal) * repulsiveState.distanceToBoundary [(1 : ℝ) / 2])) ∧
    (witnessState.effectiveDistance [(1 : ℝ) / 2] =
      witnessState.distanceToExisting [(1 : ℝ) / 2]) ∧
    (repulsiveState.distanceToBoundary [(1 : ℝ) / 2] ≤
      ((min |([(1 : ℝ) / 2] : List ℝ).getD 0 0 - (repulsiveState.extent.getD 0 (0, 0)).1|
          |(repulsiveState.extent.getD 0 (0, 0)).2 - ([(1 : ℝ) / 2] : List ℝ).getD 0 0| :
          ℝ) : EReal)) ∧
    (∃ i < ([(1 : ℝ) / 2] : List ℝ).length,
      repulsiveState.distanceToBoundary [(1 : ℝ) / 2] =
        ((min |([(1 : ℝ) / 2] : List ℝ).getD i 0 - (repulsiveState.extent.getD i (0, 0)).1|
            |(repulsiveState.extent.getD i (0, 0)).2 - ([(1 : ℝ) / 2] : List ℝ).getD i 0| :
            ℝ) : EReal)) :=
  ⟨(Poissimple.effectiveDistance_repulsive repulsiveState [(1 : ℝ) / 2]).1 rfl,
    (Poissimple.effectiveDistance_repulsive witnessState [(1 : ℝ) / 2]).2.1 rfl,
    (Poissimple.effectiveDistance_repulsive repulsiveState [(1 : ℝ) / 2]).2.2.1 0
      (by simp),
    (Poissimple.effectiveDistance_repulsive repulsiveState [(1 : ℝ) / 2]).2.2.2
      (by simp)⟩

/-- C5: on an axis with periodicity enabled the per-axis contribution to the
distance is the wrapped difference, the smaller of the direct distance and
the span minus it; in particular on the one-dimensional extent from zero to
one with periodicity, the distance between the points at one tenth and nine
tenths is one fifth (the wrapped two tenths, not the direct eight tenths). -/
theorem periodic_axis_wrapped_difference (span diff : ℝ) :
    periodicAxisDiff true span diff = min |diff| (span - |diff|) ∧
    periodicDistance [(0, 1)] [true] 1 [1 / 10] [9 / 10] = 1 / 5 := by
  constructor
  · rw [periodicAxisDiff, if_pos rfl]
  · rw [periodicDistance, show List.range 1 = [0] from rfl]
    simp only [List.map_cons, List.map_nil, List.sum_cons,
      List.sum_nil, List.getD_cons_zero]
    have hval : periodicAxisDiff true ((1 : ℝ) - 0) ((9 : ℝ) / 10 - 1 / 10) =
        1 / 5 := by
      rw [periodicAxisDiff, if_pos rfl]
      rw [show (9 : ℝ) / 10 - 1 / 10 = 4 / 5 by norm_num]
      rw [abs_of_nonneg (by norm_num : (0 : ℝ) ≤ 4 / 5)]
      rw [min_eq_right (by norm_num)]
      norm_num
    rw [hval, add_zero, Real.sqrt_sq (by norm_num)]

theorem sampleUniform_length (extent : List (ℝ × ℝ)) (u : ℕ → ℝ) (s : ℕ) :
    (sampleUniform extent u s).length = extent.length := by
  simp [sampleUniform]

theorem sampleUniform_getD (extent : List (ℝ × ℝ)) (u : ℕ → ℝ) (s i : ℕ)
    (hi : i < extent.length) :
    (sampleUniform extent u s).getD i 0 =
      (extent.getD i (0, 0)).1 +
        ((extent.getD i (0, 0)).2 - (extent.getD i (0, 0)).1) * u (s + i) := by
  have hlen : i < (sampleUniform extent u s).length := by
    rw [sampleUniform_length]
    exact hi
  rw [List.getD_eq_getElem _ _ hlen]
  simp [sampleUniform]

theorem Poissimple.nextLoop_mem (P : Poissimple) (u : ℕ → ℝ)
    (Q : List ℝ → Prop) (hQ : ∀ s, Q (sampleUniform P.extent u s)) :
    ∀ (t : ℕ) (b : Option (List ℝ)) (l : EReal) (s : ℕ),
      (∀ p, b = some p → Q p) →
      ∀ p, (P.nextLoop u t b l s).1 = some p → Q p := by
  intro t
  induction t with
  | zero =>
    intro b l s hb p hp
    exact hb p hp
  | succ t ih =>
    intro b l s hb p hp
    rw [Poissimple.nextLoop_succ] at hp
    by_cases hd : (P.radius : EReal) <
        P.effectiveDistance (sampleUniform P.extent u s)
    · rw [if_pos hd] at hp
      dsimp only at hp
      by_cases hl : l < P.effectiveDistance (sampleUniform P.extent u s)
      · rw [if_pos hl] at hp
        cases hp
        exact hQ s
      · rw [if_neg hl] at hp
        exact hb p hp
    · rw [if_neg hd] at hp
      refine ih _ _ _ ?_ p hp
      intro q hq
      by_cases hl : l < P.effectiveDistance (sampleUniform P.extent u s)
      · rw [if_pos hl] at hq
        cases hq
        exact hQ s
      · rw [if_neg hl] at hq
        exact hb q hq

/-- C9: every point produced by next has coordinate count equal to the
dimensionality, and, provided the injected random source yields values at
least zero and below one and every axis has lower strictly below upper,
every coordinate lies within its axis's extent bounds. -/
theorem Poissimple.next_point_shape_and_bounds (P : Poissimple) (u : ℕ → ℝ)
    (hlen : P.extent.length = P.dim)
    (hu : ∀ i, 0 ≤ u i ∧ u i < 1)
    (hext : ∀ b ∈ P.extent, b.1 < b.2) :
    ∀ p P1, P.next u = (some p, P1) →
      p.length = P.dim ∧
      ∀ i < p.length,
        (P.extent.getD i (0, 0)).1 ≤ p.getD i 0 ∧
          p.getD i 0 ≤ (P.extent.getD i (0, 0)).2 := by
  intro p P1 hnext
  have hQ : ∀ s, (sampleUniform P.extent u s).length = P.dim ∧
      ∀ i < (sampleUniform P.extent u s).length,
        (P.extent.getD i (0, 0)).1 ≤ (sampleUniform P.extent u s).getD i 0 ∧
          (sampleUniform P.extent u s).getD i 0 ≤ (P.extent.getD i (0, 0)).2 := by
    intro s
    refine ⟨(sampleUniform_length P.extent u s).trans hlen, fun i hi => ?_⟩
    rw [sampleUniform_length] at hi
    rw [sampleUniform_getD P.extent u s i hi]
    have hmem : P.extent.getD i (0, 0) ∈ P.extent := by
      rw [List.getD_eq_getElem _ _ hi]
      exact List.getElem_mem hi
    have hspan : 0 < (P.extent.getD i (0, 0)).2 - (P.extent.getD i (0, 0)).1 := by
      have := hext _ hmem
      linarith
    have hu1 := (hu (s + i)).1
    have hu2 := (hu (s + i)).2
    have haux1 : 0 ≤
        ((P.extent.getD i (0, 0)).2 - (P.extent.getD i (0, 0)).1) * u (s + i) :=
      mul_nonneg hspan.le hu1
    have haux2 :
        ((P.extent.getD i (0, 0)).2 - (P.extent.getD i (0, 0)).1) * u (s + i) ≤
        ((P.extent.getD i (0, 0)).2 - (P.extent.getD i (0, 0)).1) * 1 :=
      mul_le_mul_of_nonneg_left hu2.le hspan.le
    constructor
    · linarith
    · linarith
  by_cases hfull : P.points.length = P.n
  · rw [P.next_at_capacity u hfull] at hnext
    simp at hnext
  · rw [P.next_not_full u hfull] at hnext
    have h1 : (P.nextLoop u P.tries none ⊥ P.seed).1 = some p :=
      congrArg Prod.fst hnext
    exact P.nextLoop_mem u
      (fun q => q.length = P.dim ∧ ∀ i < q.length,
        (P.extent.getD i (0, 0)).1 ≤ q.getD i 0 ∧
          q.getD i 0 ≤ (P.extent.getD i (0, 0)).2)
      hQ P.tries none ⊥ P.seed (fun q hq => by cases hq) p h1

/-- A concrete sampler state with one target point and no boundary
repulsion, used to instantiate claim theorems. -/
def simpleState : Poissimple :=
  { n := 1, dim := 1, extent := [(0, 1)], tries := 30, repulsiveBoundary := false,
    volume := 1, radius := 1, points := [], seed := 0 }

/-- Witness for C9 at a concrete state and a constant-zero random source. -/
theorem Poissimple.next_point_shape_and_bounds_witness :
    (sampleUniform simpleState.extent (fun _ => 0) simpleState.seed).length =
      simpleState.dim ∧
    ∀ i < (sampleUniform simpleState.extent (fun _ => 0) simpleState.seed).length,
      (simpleState.extent.getD i (0, 0)).1 ≤
        (sampleUniform simpleState.extent (fun _ => 0) simpleState.seed).getD i 0 ∧
      (sampleUniform simpleState.extent (fun _ => 0) simpleState.seed).getD i 0 ≤
        (simpleState.extent.getD i (0, 0)).2 :=
  Poissimple.next_point_shape_and_bounds simpleState (fun _ => 0) rfl
    (fun _ => ⟨le_refl 0, by norm_num⟩)
    (by
      intro b hb
      rw [show simpleState.extent = [(0, 1)] from rfl, List.mem_singleton] at hb
      rw [hb]
      norm_num)
    (sampleUniform simpleState.extent (fun _ => 0) simpleState.seed)
    { simpleState with
        points := [sampleUniform simpleState.extent (fun _ => 0) simpleState.seed],
        seed := simpleState.seed + simpleState.extent.length }
    (simpleState.next_first_point (fun _ => 0) rfl (by decide) (by decide) rfl)

theorem listMinE_singleton (x : ℝ) : listMinE [x] = (x : EReal) := by
  show min ⊤ (x : EReal) = (x : EReal)
  exact min_eq_right le_top

theorem Poissimple.distanceToExisting_nil (P : Poissimple) (c : List ℝ)
    (hp : P.points = []) : P.distanceToExisting c = ⊤ := by
  rw [Poissimple.distanceToExisting, hp]
  rfl

theorem Poissimple.distanceToBoundary_one (P : Poissimple) (x l u2 : ℝ)
    (hext : P.extent = [(l, u2)]) :
    P.distanceToBoundary [x] = ((min |x - l| |u2 - x| : ℝ) : EReal) := by
  rw [Poissimple.distanceToBoundary, hext]
  rw [show List.range ([x].length) = [0] from rfl]
  rw [List.map_cons, List.map_nil]
  rw [show ([x].getD 0 0) = x from rfl, show ([(l, u2)].getD 0 (0, 0)) = (l, u2) from rfl]
  exact listMinE_singleton _

theorem Poissimple.effectiveDistance_empty_repulsive (P : Poissimple)
    (c : List ℝ) (hp : P.points = []) (hrb : P.repulsiveBoundary = true)
    (r : ℝ) (hb : P.distanceToBoundary c = (r : EReal)) :
    P.effectiveDistance c = ((2 * r : ℝ) : EReal) := by
  rw [Poissimple.effectiveDistance, hrb, if_pos rfl]
  rw [P.distanceToExisting_nil c hp, hb]
  rw [min_eq_right le_top, ← EReal.coe_mul]

theorem Poissimple.init_tries_pos (o : Options) :
    0 < (Poissimple.init o).tries := by
  show 0 < (if o.tries = 0 then 30 else o.tries)
  split
  · omega
  · omega

theorem Poissimple.fill_one (P : Poissimple) (u : ℕ → ℝ) (hn : P.n = 1)
    (hp : P.points = []) (ht : 0 < P.tries) (hrb : P.repulsiveBoundary = false) :
    (P.fill u).1 = [sampleUniform P.extent u P.seed] ∧
    (P.fill u).2.seed = P.seed + P.extent.length := by
  have hlt : P.points.length < P.n := by
    rw [hp, hn]
    decide
  have hfuel : P.n - P.points.length = 1 := by
    rw [hp, hn]
    rfl
  have hnext := P.next_first_point u hp (by omega) ht hrb
  have hfill : P.fill u =
      ((Poissimple.fillAux u (P.n - P.points.length) P).points,
        Poissimple.fillAux u (P.n - P.points.length) P) := rfl
  have hstep : Poissimple.fillAux u 1 P =
      if P.points.length < P.n then Poissimple.fillAux u 0 (P.next u).2 else P := rfl
  have hzero : ∀ X : Poissimple, Poissimple.fillAux u 0 X = X := fun X => rfl
  rw [hfill, hfuel, hstep, if_pos hlt, hzero, hnext]
  exact ⟨rfl, rfl⟩

/-- C8 amended: the nearest-neighbor distance against an empty collection is
infinite; when boundary repulsion is disabled, the very first next call
accepts the first candidate drawn on try one regardless of the radius; and
with one target point and boundary repulsion disabled, fill returns exactly
one point, produced from the first draw. (With boundary repulsion enabled
the first candidate can be rejected despite the infinite nearest-neighbor
distance; see the counterexample.) -/
theorem Poissimple.first_point_immediate (P R : Poissimple) (c : List ℝ)
    (o : Options) (u v : ℕ → ℝ)
    (hp : P.points = [])
    (hr : R.points = []) (hrn : 0 < R.n) (hrt : 0 < R.tries)
    (hrb : R.repulsiveBoundary = false)
    (ho : o.n = 1) (horb : o.repulsiveBoundary = false) :
    P.distanceToExisting c = ⊤ ∧
    R.next v = (some (sampleUniform R.extent v R.seed),
      { R with points := [sampleUniform R.extent v R.seed],
               seed := R.seed + R.extent.length }) ∧
    ((Poissimple.init o).fill u).1 =
      [sampleUniform (Poissimple.init o).extent u 0] := by
  refine ⟨P.distanceToExisting_nil c hp, R.next_first_point v hr hrn hrt hrb, ?_⟩
  have h1 : (Poissimple.init o).n = 1 := by
    show (if o.n = 0 then 10 else o.n) = 1
    rw [ho]
    rfl
  have h2 : (Poissimple.init o).repulsiveBoundary = false := horb
  exact ((Poissimple.init o).fill_one u h1 rfl (Poissimple.init_tries_pos o) h2).1

/-- Witness for the amended C8 at concrete states, configuration and
random sources. -/
theorem Poissimple.first_point_immediate_witness :
    simpleState.distanceToExisting [(1 : ℝ) / 2] = ⊤ ∧
    simpleState.next (fun _ => 0) =
      (some (sampleUniform simpleState.extent (fun _ => 0) simpleState.seed),
        { simpleState with
            points := [sampleUniform simpleState.extent (fun _ => 0) simpleState.seed],
            seed := simpleState.seed + simpleState.extent.length }) ∧
    ((Poissimple.init ⟨1, 1, some [(0, 1)], 30, false⟩).fill (fun _ => 0)).1 =
      [sampleUniform (Poissimple.init ⟨1, 1, some [(0, 1)], 30, false⟩).extent
        (fun _ => 0) 0] :=
  Poissimple.first_point_immediate simpleState simpleState [(1 : ℝ) / 2]
    ⟨1, 1, some [(0, 1)], 30, false⟩ (fun _ => 0) (fun _ => 0)
    rfl rfl (by decide) (by decide) rfl rfl rfl

/-- A random stream whose first draw lands a candidate on the extent's edge
and whose later draws land candidates at the center. -/
noncomputable def edgeThenMid : ℕ → ℝ := fun i => if i = 0 then 0 else 1 / 2

/-- The state constructed for one point on the unit interval with boundary
repulsion, with the derived volume and radius written out. -/
noncomputable def edgeState : Poissimple :=
  { n := 1, dim := 1, extent := [(0, 1)], tries := 30, repulsiveBoundary := true,
    volume := 1, radius := Real.pi / 4, points := [], seed := 0 }

theorem init_edge_eq_edgeState :
    Poissimple.init ⟨1, 1, some [(0, 1)], 30, true⟩ = edgeState := by
  rw [Poissimple.init, edgeState]
  have hv : computeExtentVolume [((0 : ℝ), (1 : ℝ))] = 1 := by
    simp [computeExtentVolume]
  have hr : computeLowerDistance 1 1 1 = Real.pi / 4 := by
    rw [computeLowerDistance]
    norm_num [Real.one_rpow]
  simp [Poissimple.mk.injEq, hv, hr]

theorem edgeState_sample_zero :
    sampleUniform edgeState.extent edgeThenMid edgeState.seed = [(0 : ℝ)] := by
  rw [show edgeState.extent = [((0 : ℝ), (1 : ℝ))] from rfl,
    show edgeState.seed = 0 from rfl]
  rw [sampleUniform, show List.range ([((0 : ℝ), (1 : ℝ))].length) = [0] from rfl]
  rw [List.map_cons, List.map_nil]
  rw [show ([((0 : ℝ), (1 : ℝ))].getD 0 (0, 0)) = ((0 : ℝ), (1 : ℝ)) from rfl]
  rw [show edgeThenMid (0 + 0) = 0 from rfl]
  norm_num

theorem edgeState_sample_one :
    sampleUniform edgeState.extent edgeThenMid
      (edgeState.seed + edgeState.extent.length) = [(1 : ℝ) / 2] := by
  rw [show edgeState.seed + edgeState.extent.length = 1 from rfl,
    show edgeState.extent = [((0 : ℝ), (1 : ℝ))] from rfl]
  rw [sampleUniform, show List.range ([((0 : ℝ), (1 : ℝ))].length) = [0] from rfl]
  rw [List.map_cons, List.map_nil]
  rw [show ([((0 : ℝ), (1 : ℝ))].getD 0 (0, 0)) = ((0 : ℝ), (1 : ℝ)) from rfl]
  rw [show edgeThenMid (1 + 0) = 1 / 2 by rw [edgeThenMid]; norm_num]
  norm_num

theorem edgeState_eff_zero :
    edgeState.effectiveDistance [(0 : ℝ)] = ((0 : ℝ) : EReal) := by
  have hb : edgeState.distanceToBoundary [(0 : ℝ)] = ((0 : ℝ) : EReal) := by
    rw [edgeState.distanceToBoundary_one 0 0 1 rfl]
    norm_num
  rw [edgeState.effectiveDistance_empty_repulsive [(0 : ℝ)] rfl rfl 0 hb]
  norm_num

theorem edgeState_eff_mid :
    edgeState.effectiveDistance [(1 : ℝ) / 2] = ((1 : ℝ) : EReal) := by
  have hb : edgeState.distanceToBoundary [(1 : ℝ) / 2] = ((1 / 2 : ℝ) : EReal) := by
    rw [edgeState.distanceToBoundary_one (1 / 2) 0 1 rfl]
    rw [show |(1 : ℝ) / 2 - 0| = 1 / 2 by rw [abs_of_nonneg] <;> norm_num]
    rw [show |(1 : ℝ) - 1 / 2| = 1 / 2 by rw [abs_of_nonneg] <;> norm_num]
    rw [min_self]
  rw [edgeState.effectiveDistance_empty_repulsive [(1 : ℝ) / 2] rfl rfl (1 / 2) hb]
  rw [EReal.coe_eq_coe_iff]
  norm_num

/-- C8 as stated fails when boundary repulsion is enabled: on the very first
next call of this configuration the nearest-neighbor distance is infinite,
yet the first candidate drawn (which lies on the extent's edge, so its
acceptance distance is zero) is not accepted on try one; the point accepted
and returned is the second candidate, not the first. -/
theorem Poissimple.first_try_rejected_with_repulsion :
    (Poissimple.init ⟨1, 1, some [(0, 1)], 30, true⟩).points = [] ∧
    sampleUniform (Poissimple.init ⟨1, 1, some [(0, 1)], 30, true⟩).extent
        edgeThenMid (Poissimple.init ⟨1, 1, some [(0, 1)], 30, true⟩).seed =
      [(0 : ℝ)] ∧
    ((Poissimple.init ⟨1, 1, some [(0, 1)], 30, true⟩).next edgeThenMid).1 =
      some [(1 : ℝ) / 2] ∧
    some [(1 : ℝ) / 2] ≠ some [(0 : ℝ)] := by
  rw [init_edge_eq_edgeState]
  refine ⟨rfl, edgeState_sample_zero, ?_, by norm_num⟩
  rw [edgeState.next_not_full edgeThenMid (by decide)]
  have hbot : (⊥ : EReal) < ((0 : ℝ) : EReal) := EReal.bot_lt_coe 0
  have h0 : ¬ (edgeState.radius : EReal) <
      edgeState.effectiveDistance (sampleUniform edgeState.extent edgeThenMid
        edgeState.seed) := by
    rw [edgeState_sample_zero, edgeState_eff_zero]
    rw [show edgeState.radius = Real.pi / 4 from rfl]
    rw [not_lt]
    exact EReal.coe_le_coe_iff.mpr (by positivity)
  have h1 : (edgeState.radius : EReal) <
      edgeState.effectiveDistance (sampleUniform edgeState.extent edgeThenMid
        (edgeState.seed + edgeState.extent.length)) := by
    rw [edgeState_sample_one, edgeState_eff_mid]
    rw [show edgeState.radius = Real.pi / 4 from rfl]
    refine EReal.coe_lt_coe_iff.mpr ?_
    have hpi := Real.pi_lt_d2
    linarith
  have hl : ((0 : ℝ) : EReal) <
      edgeState.effectiveDistance (sampleUniform edgeState.extent edgeThenMid
        (edgeState.seed + edgeState.extent.length)) := by
    rw [edgeState_sample_one, edgeState_eff_mid]
    exact EReal.coe_lt_coe_iff.mpr (by norm_num)
  have hcond : (⊥ : EReal) <
      edgeState.effectiveDistance (sampleUniform edgeState.extent edgeThenMid
        edgeState.seed) := by
    rw [edgeState_sample_zero, edgeState_eff_zero]
    exact hbot
  rw [show edgeState.tries = 29 + 1 from rfl]
  rw [edgeState.nextLoop_succ_cont edgeThenMid 29 none ⊥ edgeState.seed h0]
  rw [if_pos hcond, if_pos hcond]
  rw [edgeState_sample_zero, edgeState_eff_zero]
  rw [show (29 : ℕ) = 28 + 1 from rfl]
  rw [edgeState.nextLoop_succ_exit edgeThenMid 28 (some [(0 : ℝ)]) ((0 : ℝ) : EReal)
    (edgeState.seed + edgeState.extent.length) hl h1]
  rw [edgeState_sample_one]

theorem PoisSimple.nextLoop_step (P : PoisSimple) (u : ℕ → ℝ) (t : ℕ)
    (b : Option (List ℝ)) (l : EReal) (s : ℕ) :
    P.nextLoop u (t + 1) b l s =
      (if (P.radius : EReal) < P.distanceToExisting (sampleUniform P.extent u s) then
        ((if l < P.distanceToExisting (sampleUniform P.extent u s) then
            some (sampleUniform P.extent u s) else b), s + P.extent.length)
      else P.nextLoop u t
        (if l < P.distanceToExisting (sampleUniform P.extent u s) then
          some (sampleUniform P.extent u s) else b)
        (if l < P.distanceToExisting (sampleUniform P.extent u s) then
          P.distanceToExisting (sampleUniform P.extent u s) else l)
        (s + P.extent.length)) := rfl

theorem PoisSimple.next_full_stop (P : PoisSimple) (u : ℕ → ℝ)
    (h : P.points.length = P.n) : P.next u = (none, P) := by
  rw [PoisSimple.next, if_pos h]

theorem PoisSimple.next_below_capacity (P : PoisSimple) (u : ℕ → ℝ)
    (h : ¬ P.points.length = P.n) :
    P.next u = ((P.nextLoop u P.tries none ⊥ P.seed).1,
      { P with points := P.points ++ (P.nextLoop u P.tries none ⊥ P.seed).1.toList,
               seed := (P.nextLoop u P.tries none ⊥ P.seed).2 }) := by
  rw [PoisSimple.next, if_neg h]

/-- Field-for-field agreement between a state of each implementation
variant (the boundary-repulsion flag exists only in one of them). -/
def MatchesState (Q : PoisSimple) (P : Poissimple) : Prop :=
  Q.n = P.n ∧ Q.dim = P.dim ∧ Q.extent = P.extent ∧ Q.tries = P.tries ∧
    Q.radius = P.radius ∧ Q.points = P.points ∧ Q.seed = P.seed

theorem matches_distanceToExisting {Q : PoisSimple} {P : Poissimple}
    (h : MatchesState Q P) (c : List ℝ) :
    Q.distanceToExisting c = P.distanceToExisting c := by
  rw [PoisSimple.distanceToExisting, Poissimple.distanceToExisting,
    h.2.1, h.2.2.2.2.2.1]

theorem matches_nextLoop {Q : PoisSimple} {P : Poissimple}
    (h : MatchesState Q P) (hrb : P.repulsiveBoundary = false) (u : ℕ → ℝ) :
    ∀ (t : ℕ) (b : Option (List ℝ)) (l : EReal) (s : ℕ),
      Q.nextLoop u t b l s = P.nextLoop u t b l s := by
  intro t
  induction t with
  | zero => intro b l s; rfl
  | succ t ih =>
    intro b l s
    rw [PoisSimple.nextLoop_step, Poissimple.nextLoop_succ]
    rw [h.2.2.1, h.2.2.2.2.1]
    rw [matches_distanceToExisting h (sampleUniform P.extent u s)]
    rw [P.effectiveDistance_not_repulsive (sampleUniform P.extent u s) hrb]
    rw [ih]

theorem matches_next {Q : PoisSimple} {P : Poissimple}
    (h : MatchesState Q P) (hrb : P.repulsiveBoundary = false) (u : ℕ → ℝ) :
    (Q.next u).1 = (P.next u).1 ∧ MatchesState (Q.next u).2 (P.next u).2 := by
  obtain ⟨hn, hdim, hext, htries, hrad, hpts, hseed⟩ := h
  by_cases hfull : P.points.length = P.n
  · have hfullQ : Q.points.length = Q.n := by rw [hpts, hn]; exact hfull
    rw [Q.next_full_stop u hfullQ, P.next_at_capacity u hfull]
    exact ⟨rfl, hn, hdim, hext, htries, hrad, hpts, hseed⟩
  · have hfullQ : ¬ Q.points.length = Q.n := by rw [hpts, hn]; exact hfull
    rw [Q.next_below_capacity u hfullQ, P.next_not_full u hfull]
    have hloop := matches_nextLoop ⟨hn, hdim, hext, htries, hrad, hpts, hseed⟩
      hrb u P.tries none ⊥ P.seed
    rw [htries, hseed, hloop]
    exact ⟨rfl, hn, hdim, hext, rfl, hrad, by rw [hpts], rfl⟩

theorem Poissimple.next_repulsive (P : Poissimple) (u : ℕ → ℝ) :
    (P.next u).2.repulsiveBoundary = P.repulsiveBoundary :=
  (P.next_config u).2.2.2.2.1

theorem Poissimple.fillAux_repulsive (u : ℕ → ℝ) (fuel : ℕ) (P : Poissimple) :
    (Poissimple.fillAux u fuel P).repulsiveBoundary = P.repulsiveBoundary := by
  induction fuel generalizing P with
  | zero => rfl
  | succ fuel ih =>
    rw [Poissimple.fillAux]
    split
    · exact (ih _).trans (P.next_repulsive u)
    · rfl

theorem matches_fillAux (u : ℕ → ℝ) :
    ∀ (fuel : ℕ) (Q : PoisSimple) (P : Poissimple),
      MatchesState Q P → P.repulsiveBoundary = false →
      MatchesState (PoisSimple.fillAux u fuel Q) (Poissimple.fillAux u fuel P) := by
  intro fuel
  induction fuel with
  | zero => intro Q P h _; exact h
  | succ fuel ih =>
    intro Q P h hrb
    rw [PoisSimple.fillAux, Poissimple.fillAux]
    by_cases hlt : P.points.length < P.n
    · rw [if_pos (by rw [h.2.2.2.2.2.1, h.1]; exact hlt), if_pos hlt]
      exact ih _ _ (matches_next h hrb u).2 ((P.next_repulsive u).trans hrb)
    · rw [if_neg (by rw [h.2.2.2.2.2.1, h.1]; exact hlt), if_neg hlt]
      exact h

theorem matches_fill {Q : PoisSimple} {P : Poissimple}
    (h : MatchesState Q P) (hrb : P.repulsiveBoundary = false) (u : ℕ → ℝ) :
    (Q.fill u).1 = (P.fill u).1 ∧ MatchesState (Q.fill u).2 (P.fill u).2 := by
  have hfuel : Q.n - Q.points.length = P.n - P.points.length := by
    rw [h.1, h.2.2.2.2.2.1]
  have haux := matches_fillAux u (P.n - P.points.length) Q P h hrb
  constructor
  · show (PoisSimple.fillAux u (Q.n - Q.points.length) Q).points =
      (Poissimple.fillAux u (P.n - P.points.length) P).points
    rw [hfuel]
    exact haux.2.2.2.2.2.1
  · show MatchesState (PoisSimple.fillAux u (Q.n - Q.points.length) Q)
      (Poissimple.fillAux u (P.n - P.points.length) P)
    rw [hfuel]
    exact haux

theorem Poissimple.fill_repulsive (P : Poissimple) (u : ℕ → ℝ) :
    (P.fill u).2.repulsiveBoundary = P.repulsiveBoundary :=
  Poissimple.fillAux_repulsive u _ P

theorem matches_runOps (u : ℕ → ℝ) :
    ∀ (ops : List SamplerOp) (Q : PoisSimple) (P : Poissimple),
      MatchesState Q P → P.repulsiveBoundary = false →
      MatchesState (PoisSimple.runOps u ops Q) (Poissimple.runOps u ops P) := by
  intro ops
  induction ops with
  | nil => intro Q P h _; exact h
  | cons op ops ih =>
    intro Q P h hrb
    cases op with
    | next =>
      exact ih _ _ (matches_next h hrb u).2 ((P.next_repulsive u).trans hrb)
    | fill =>
      exact ih _ _ (matches_fill h hrb u).2 ((P.fill_repulsive u).trans hrb)

theorem Poissimple.runOps_repulsive (u : ℕ → ℝ) (ops : List SamplerOp)
    (P : Poissimple) :
    (Poissimple.runOps u ops P).repulsiveBoundary = P.repulsiveBoundary := by
  induction ops generalizing P with
  | nil => rfl
  | cons op ops ih =>
    cases op with
    | next => exact (ih _).trans (P.next_repulsive u)
    | fill => exact (ih _).trans (P.fill_repulsive u)

theorem matches_init (o : Options) (hn : 0 < o.n) (hd : 2 ≤ o.dimensions) :
    MatchesState (PoisSimple.init ⟨o.n, o.dimensions, o.extent, o.tries⟩)
      (Poissimple.init o) := by
  have hn0 : ¬ o.n = 0 := by omega
  have hd0 : ¬ o.dimensions = 0 := by omega
  simp [MatchesState, PoisSimple.init, Poissimple.init, hn0, hd0]

/-- C10: for configurations where n and dimensions are explicitly supplied
(n positive and dimensions at least two, as the data model requires), the
extent is supplied in nested per-axis form or defaulted, and boundary
repulsion is absent or false, the two implementation variants in the source
file, driven by the same random stream, hold identical accepted-point
collections after any sequence of next and fill calls, and a further next
or fill call from any such reachable pair returns identical points. -/
theorem variants_agree (o : Options) (u : ℕ → ℝ) (ops : List SamplerOp)
    (hn : 0 < o.n) (hd : 2 ≤ o.dimensions) (hrb : o.repulsiveBoundary = false) :
    (PoisSimple.runOps u ops
        (PoisSimple.init ⟨o.n, o.dimensions, o.extent, o.tries⟩)).points =
      (Poissimple.runOps u ops (Poissimple.init o)).points ∧
    ((PoisSimple.runOps u ops
        (PoisSimple.init ⟨o.n, o.dimensions, o.extent, o.tries⟩)).next u).1 =
      ((Poissimple.runOps u ops (Poissimple.init o)).next u).1 ∧
    ((PoisSimple.runOps u ops
        (PoisSimple.init ⟨o.n, o.dimensions, o.extent, o.tries⟩)).fill u).1 =
      ((Poissimple.runOps u ops (Poissimple.init o)).fill u).1 := by
  have hrbP : (Poissimple.init o).repulsiveBoundary = false := hrb
  have hrun := matches_runOps u ops _ _ (matches_init o hn hd) hrbP
  have hrbrun : (Poissimple.runOps u ops
      (Poissimple.init o)).repulsiveBoundary = false :=
    (Poissimple.runOps_repulsive u ops _).trans hrbP
  exact ⟨hrun.2.2.2.2.2.1, (matches_next hrun hrbrun u).1,
    (matches_fill hrun hrbrun u).1⟩

/-- Witness for C10 at a concrete configuration, stream and call
sequence. -/
theorem variants_agree_witness :
    (PoisSimple.runOps (fun _ => 0) [SamplerOp.next]
        (PoisSimple.init ⟨1, 2, none, 1⟩)).points =
      (Poissimple.runOps (fun _ => 0) [SamplerOp.next]
        (Poissimple.init ⟨1, 2, none, 1, false⟩)).points ∧
    ((PoisSimple.runOps (fun _ => 0) [SamplerOp.next]
        (PoisSimple.init ⟨1, 2, none, 1⟩)).next (fun _ => 0)).1 =
      ((Poissimple.runOps (fun _ => 0) [SamplerOp.next]
        (Poissimple.init ⟨1, 2, none, 1, false⟩)).next (fun _ => 0)).1 ∧
    ((PoisSimple.runOps (fun _ => 0) [SamplerOp.next]
        (PoisSimple.init ⟨1, 2, none, 1⟩)).fill (fun _ => 0)).1 =
      ((Poissimple.runOps (fun _ => 0) [SamplerOp.next]
        (Poissimple.init ⟨1, 2, none, 1, false⟩)).fill (fun _ => 0)).1 :=
  variants_agree ⟨1, 2, none, 1, false⟩ (fun _ => 0) [SamplerOp.next]
    (by decide) (by decide) rfl

theorem distance_one (x y : ℝ) : distance 1 [x] [y] = |y - x| := by
  rw [distance, show List.range 1 = [0] from rfl]
  rw [List.map_cons, List.map_nil, List.sum_cons, List.sum_nil, add_zero]
  rw [show ([y].getD 0 0) = y from rfl, show ([x].getD 0 0) = x from rfl]
  exact Real.sqrt_sq_eq_abs _

theorem Poissimple.effectiveDistance_single (P : Poissimple) (c p : List ℝ)
    (hp : P.points = [p]) (hrb : P.repulsiveBoundary = false) :
    P.effectiveDistance c = ((distance P.dim p c : ℝ) : EReal) := by
  rw [P.effectiveDistance_not_repulsive c hrb, Poissimple.distanceToExisting, hp]
  rw [List.map_cons, List.map_nil]
  exact listMinE_singleton _

theorem sampleUniform_unit (u : ℕ → ℝ) (s : ℕ) :
    sampleUniform [((0 : ℝ), (1 : ℝ))] u s = [u s] := by
  rw [sampleUniform, show List.range ([((0 : ℝ), (1 : ℝ))].length) = [0] from rfl]
  rw [List.map_cons, List.map_nil]
  rw [show ([((0 : ℝ), (1 : ℝ))].getD 0 (0, 0)) = ((0 : ℝ), (1 : ℝ)) from rfl]
  simp

theorem eff_unit_single {P : Poissimple} (hdim : P.dim = 1)
    (hpts : P.points = [[(0 : ℝ)]]) (hrb : P.repulsiveBoundary = false)
    (x : ℝ) (hx : 0 ≤ x) :
    P.effectiveDistance [x] = (x : EReal) := by
  rw [P.effectiveDistance_single _ [(0 : ℝ)] hpts hrb, hdim, distance_one]
  rw [abs_of_nonneg (by linarith : (0 : ℝ) ≤ x - 0), sub_zero]

theorem candidateAt_unit {P : Poissimple} (hext : P.extent = [((0 : ℝ), (1 : ℝ))])
    (hseed : P.seed = 0) (u : ℕ → ℝ) (k : ℕ) :
    candidateAt P.extent u P.seed k = [u k] := by
  rw [candidateAt, hext, hseed, sampleUniform_unit]
  simp

/-- A random stream whose first draw is one tenth and whose later draws are
nine tenths. -/
noncomputable def stepRng : ℕ → ℝ := fun k => if k = 0 then 1 / 10 else 9 / 10

/-- A concrete state with one accepted point and a radius beaten only by the
second candidate of `stepRng`. -/
noncomputable def stepState : Poissimple :=
  { n := 2, dim := 1, extent := [(0, 1)], tries := 30, repulsiveBoundary := false,
    volume := 1, radius := 1 / 4, points := [[0]], seed := 0 }

/-- Witness for C2: at `stepState` the second candidate is the first to beat
the radius and is exactly the point accepted, after two draws. -/
theorem Poissimple.next_early_exit_accepts_trigger_witness :
    stepState.next stepRng =
      (some (candidateAt stepState.extent stepRng stepState.seed 1),
        { stepState with
            points := stepState.points ++
              [candidateAt stepState.extent stepRng stepState.seed 1],
            seed := stepState.seed + (1 + 1) * stepState.extent.length }) := by
  have hc0 : candidateAt stepState.extent stepRng stepState.seed 0 =
      [(1 : ℝ) / 10] := by
    rw [candidateAt_unit rfl rfl]
    rw [show stepRng 0 = 1 / 10 from rfl]
  have hc1 : candidateAt stepState.extent stepRng stepState.seed 1 =
      [(9 : ℝ) / 10] := by
    rw [candidateAt_unit rfl rfl]
    rw [show stepRng 1 = 9 / 10 from rfl]
  refine Poissimple.next_early_exit_accepts_trigger stepState stepRng 1
    (by decide) (by decide) ?_ ?_
  · intro k hk
    obtain rfl : k = 0 := by omega
    rw [hc0, eff_unit_single rfl rfl rfl (1 / 10) (by norm_num)]
    rw [show stepState.radius = 1 / 4 from rfl, not_lt]
    exact EReal.coe_le_coe_iff.mpr (by norm_num)
  · rw [hc1, eff_unit_single rfl rfl rfl (9 / 10) (by norm_num)]
    rw [show stepState.radius = 1 / 4 from rfl]
    exact EReal.coe_lt_coe_iff.mpr (by norm_num)

/-- A concrete state whose radius no candidate of `stepRng` beats, with a
try budget of two. -/
noncomputable def fallbackState : Poissimple :=
  { n := 2, dim := 1, extent := [(0, 1)], tries := 2, repulsiveBoundary := false,
    volume := 1, radius := 2, points := [[0]], seed := 0 }

/-- Witness for C3: at `fallbackState` no candidate beats the radius and the
second candidate, which has the larger acceptance distance, is the point
accepted after the full try budget. -/
theorem Poissimple.next_fallback_best_candidate_witness :
    fallbackState.next stepRng =
      (some (candidateAt fallbackState.extent stepRng fallbackState.seed 1),
        { fallbackState with
            points := fallbackState.points ++
              [candidateAt fallbackState.extent stepRng fallbackState.seed 1],
            seed := fallbackState.seed +
              fallbackState.tries * fallbackState.extent.length }) := by
  have hc0 : candidateAt fallbackState.extent stepRng fallbackState.seed 0 =
      [(1 : ℝ) / 10] := by
    rw [candidateAt_unit rfl rfl]
    rw [show stepRng 0 = 1 / 10 from rfl]
  have hc1 : candidateAt fallbackState.extent stepRng fallbackState.seed 1 =
      [(9 : ℝ) / 10] := by
    rw [candidateAt_unit rfl rfl]
    rw [show stepRng 1 = 9 / 10 from rfl]
  have he0 : fallbackState.effectiveDistance
      (candidateAt fallbackState.extent stepRng fallbackState.seed 0) =
      (((1 : ℝ) / 10 : ℝ) : EReal) := by
    rw [hc0]
    exact eff_unit_single rfl rfl rfl (1 / 10) (by norm_num)
  have he1 : fallbackState.effectiveDistance
      (candidateAt fallbackState.extent stepRng fallbackState.seed 1) =
      (((9 : ℝ) / 10 : ℝ) : EReal) := by
    rw [hc1]
    exact eff_unit_single rfl rfl rfl (9 / 10) (by norm_num)
  refine Poissimple.next_fallback_best_candidate fallbackState stepRng 1
    (by decide) (by decide) ?_ ?_ ?_
  · intro k hk
    have hkk : k < 2 := hk
    have hk2 : k = 0 ∨ k = 1 := by omega
    rcases hk2 with rfl | rfl
    · rw [he0, show fallbackState.radius = 2 from rfl, not_lt]
      exact EReal.coe_le_coe_iff.mpr (by norm_num)
    · rw [he1, show fallbackState.radius = 2 from rfl, not_lt]
      exact EReal.coe_le_coe_iff.mpr (by norm_num)
  · intro k hk
    obtain rfl : k = 0 := by omega
    rw [he0, he1]
    exact EReal.coe_lt_coe_iff.mpr (by norm_num)
  · intro k hk
    have hkk : k < 2 := hk
    have hk2 : k = 0 ∨ k = 1 := by omega
    rcases hk2 with rfl | rfl
    · rw [he0, he1]
      exact EReal.coe_le_coe_iff.mpr (by norm_num)
    · rw [he1]
